import Mathlib

/-!
Verification of the backup/export/import/sync engine of the chop-chop
repository (src/server/sync.js), against its natural-language spec.

The relational store is shallowly embedded: a store is an association list
from table name to a table, a table is a column list (schema) plus a list
of rows, and a row is an association list from column name to a scalar
value.  Row lists model the order `SELECT *` returns rows in (rowid
order).  Scalar REAL values and SQLite type affinity are not modelled: no
property below depends on them.  The per-table primary keys are taken from
the CREATE TABLE statements in src/server/index.js: every table has
`id INTEGER PRIMARY KEY` except `settings`, whose key column is
`key TEXT PRIMARY KEY`.  `INSERT OR REPLACE` is modelled as: when the
inserted column set supplies a non-null value for the primary key and a
row with that key exists, that row is replaced in place; otherwise the new
row is appended (SQLite assigns a fresh rowid when the integer primary key
is absent or null; the model keeps the null, which preserves row counts
and all non-key fields).  The UNIQUE constraints on the two assignment
tables are not modelled; no claim below depends on them.
-/

inductive Value where
  | vnull : Value
  | vint : Int → Value
  | vtext : String → Value
deriving DecidableEq, Repr

/-- A row as returned by `SELECT *`: column name / value pairs. -/
abbrev Row := List (String × Value)

/-- A live table: its current column list, the subset of columns declared
NOT NULL (in the index.js schema no NOT NULL column has a DEFAULT, so an
insert leaving one NULL always fails), and its rows in rowid order. -/
structure Table where
  schema : List String
  notNull : List String
  rows : List Row
deriving DecidableEq, Repr

/-- The relational store: association list from table name to table. -/
abbrev Store := List (String × Table)

/-- First value bound to a key in an association list. -/
def alookup {α : Type} (l : List (String × α)) (k : String) : Option α :=
  match l with
  | [] => none
  | (n, v) :: rest => if n = k then some v else alookup rest k

/-- Look a table up in the store by name. -/
def findTable (db : Store) (t : String) : Option Table :=
  alookup db t

/-- Replace the named table's contents (no-op if the table is absent). -/
def setTable (db : Store) (t : String) (tbl : Table) : Store :=
  match db with
  | [] => []
  | (n, tb) :: rest =>
    if n = t then (n, tbl) :: rest else (n, tb) :: setTable rest t tbl

/-- `getTableColumns` (sync.js:254-262): `PRAGMA table_info` column names;
a failing query (missing table) yields `[]`. -/
def getTableColumns (db : Store) (t : String) : List String :=
  match findTable db t with
  | none => []
  | some tbl => tbl.schema

/-- The snapshot document: `exportedAt` / `version` metadata is omitted
(the importer reads only `tables`, sync.js:282); `tables = none` models a
document with no `tables` field. -/
structure Doc where
  tables : Option (List (String × List Row))
deriving DecidableEq, Repr

/-- Table order used by `exportDatabaseData` (sync.js:219-231). -/
def exportTables : List String :=
  ["interns", "intern_files", "intern_notes", "projects",
   "project_assignments", "tasks", "events", "event_assignments",
   "weekly_reports", "settings", "activity_log"]

/-- Import order of `importDatabaseData` (sync.js:289-301), the canonical
dependency-ordered table list of the spec. -/
def importOrder : List String :=
  ["settings", "interns", "projects", "project_assignments", "tasks",
   "events", "event_assignments", "intern_files", "intern_notes",
   "weekly_reports", "activity_log"]

/-- Rows of a table for export; a failing `SELECT *` (missing table)
is caught and recorded as `[]` (sync.js:238-241). -/
def exportRows (db : Store) (t : String) : List Row :=
  match findTable db t with
  | none => []
  | some tbl => tbl.rows

/-- `exportDatabaseData` (sync.js:211-246): every export table's full row
list, in export-list order. -/
def exportDatabaseData (db : Store) : Doc :=
  { tables := some (exportTables.map (fun t => (t, exportRows db t))) }

/-- Primary-key column of each table (CREATE TABLE statements in
src/server/index.js: `id` everywhere, `key` for `settings`). -/
def pkOf (t : String) : List String :=
  if t = "settings" then ["key"] else ["id"]

/-- Import result (sync.js:275-280); `imported` / `skipped` are
association lists in table-visit order, mirroring JS object key order. -/
structure ImportResult where
  success : Bool
  imported : List (String × Nat)
  errors : List String
  skipped : List (String × Nat)
deriving DecidableEq, Repr

/-- The column list actually inserted for a row (sync.js:341-342): the
row's own keys filtered to the live schema, in row order. -/
def filterCols (validColumns : List String) (row : Row) : List String :=
  (row.map Prod.fst).filter (fun c => validColumns.contains c)

/-- The row as stored after an INSERT naming only `row`'s schema columns:
named columns take the row's value, unnamed schema columns default to
NULL. -/
def fillRow (schema : List String) (row : Row) : Row :=
  schema.map (fun c => (c, (alookup row c).getD Value.vnull))

/-- Is this scalar SQL NULL? -/
def isNull (v : Value) : Bool :=
  match v with
  | Value.vnull => true
  | _ => false

/-- The first live NOT NULL column whose effective inserted value would be
NULL: a column named in the INSERT takes the row's value, an unnamed one
gets its default, and no NOT NULL column of this schema has a default, so
it becomes NULL.  SQLite then raises `NOT NULL constraint failed:
table.column` — under plain INSERT and under INSERT OR REPLACE alike,
since REPLACE falls back to ABORT when the column has no default.
(UNIQUE/foreign-key failures are not modelled: index.js never enables
`PRAGMA foreign_keys`, and no claim depends on UNIQUE collisions.) -/
def nullViolation (schema notNull : List String) (row : Row) : Option String :=
  notNull.find? (fun c =>
    schema.contains c && isNull ((alookup row c).getD Value.vnull))

/-- Fate of one snapshot row in the import loop (sync.js:338-365):
inserted, skipped for an empty column intersection (sync.js:344-347), or
skipped with an error because the insert threw (sync.js:361-365). -/
inductive RowOutcome where
  | imported : RowOutcome
  | emptyIntersection : RowOutcome
  | constraintError : String → RowOutcome
deriving DecidableEq, Repr

/-- The row's insert statement would succeed: some column intersects the
live schema and no NOT NULL constraint fires. -/
def insertable (schema notNull : List String) (row : Row) : Bool :=
  !(filterCols schema row).isEmpty && (nullViolation schema notNull row).isNone

/-- Primary-key value vector of a stored row. -/
def rowPk (pk : List String) (r : Row) : List (Option Value) :=
  pk.map (fun c => alookup r c)

/-- A primary-key vector that actually identifies a row: every component
present and non-null. -/
def pkPresent (key : List (Option Value)) : Bool :=
  key.all (fun v =>
    match v with
    | some Value.vnull => false
    | some _ => true
    | none => false)

/-- Replace the first row matching `p` with `new`. -/
def replaceFirst (p : Row → Bool) (new : Row) : List Row → List Row
  | [] => []
  | r :: rs => if p r then new :: rs else r :: replaceFirst p new rs

/-- `INSERT OR REPLACE` (sync.js:354): replace the row with the same
non-null primary key in place, else append. -/
def upsertRow (pk : List String) (rows : List Row) (newRow : Row) : List Row :=
  let key := rowPk pk newRow
  if pkPresent key && rows.any (fun r => rowPk pk r == key) then
    replaceFirst (fun r => rowPk pk r == key) newRow rows
  else
    rows ++ [newRow]

/-- One row of the import loop (sync.js:338-365): the updated row list and
the row's fate.  An empty column intersection skips the row; a NOT NULL
violation makes the prepared statement throw, which the catch at
sync.js:361-365 turns into a skipped row plus an error; otherwise the row
is inserted (upsert in merge mode, plain append in replace mode). -/
def processRow (merge : Bool) (t : String) (pk schema notNull : List String)
    (rows : List Row) (row : Row) : List Row × RowOutcome :=
  if (filterCols schema row).isEmpty then
    (rows, RowOutcome.emptyIntersection)
  else
    match nullViolation schema notNull row with
    | some c =>
      (rows, RowOutcome.constraintError
        ("NOT NULL constraint failed: " ++ t ++ "." ++ c))
    | none =>
      let filled := fillRow schema row
      if merge then (upsertRow pk rows filled, RowOutcome.imported)
      else (rows ++ [filled], RowOutcome.imported)

/-- Accumulation step of the per-table row loop: row list so far, the
imported and skipped counters, and the row errors collected so far
(sync.js:344-365). -/
def insertStep (merge : Bool) (t : String) (pk schema notNull : List String)
    (acc : List Row × Nat × Nat × List String) (row : Row) :
    List Row × Nat × Nat × List String :=
  let (rs, imp, skp, errs) := acc
  let (rs', out) := processRow merge t pk schema notNull rs row
  match out with
  | RowOutcome.imported => (rs', imp + 1, skp, errs)
  | RowOutcome.emptyIntersection => (rs', imp, skp + 1, errs)
  | RowOutcome.constraintError msg =>
    (rs', imp, skp + 1,
     errs ++ ["Error importing " ++ t ++ " row: " ++ msg])

/-- The whole per-table row loop: final row list, imported and skipped
counts, and the row-level error messages in row order. -/
def insertRows (merge : Bool) (t : String) (pk schema notNull : List String)
    (rows : List Row) (docRows : List Row) :
    List Row × Nat × Nat × List String :=
  docRows.foldl (insertStep merge t pk schema notNull) (rows, 0, 0, [])

/-- Replace-mode clearing (sync.js:305-316): delete every row of every
canonical table, reverse canonical order; a missing table is ignored. -/
def clearStep (db : Store) (t : String) : Store :=
  match findTable db t with
  | none => db
  | some tbl => setTable db t { tbl with rows := [] }

def clearTables (db : Store) : Store :=
  importOrder.reverse.foldl clearStep db

/-- One table of the import loop (sync.js:319-369). -/
def importOneTable (merge : Bool) (tbls : List (String × List Row))
    (acc : Store × ImportResult) (t : String) : Store × ImportResult :=
  let (db, res) := acc
  match alookup tbls t with
  | none => (db, res)
  | some rows =>
    match findTable db t with
    | none =>
      (db, { res with
               imported := res.imported ++ [(t, 0)],
               skipped := res.skipped ++ [(t, 0)],
               errors := res.errors ++
                 ["Table " ++ t ++ " does not exist in database"] })
    | some tbl =>
      if tbl.schema.isEmpty then
        (db, { res with
                 imported := res.imported ++ [(t, 0)],
                 skipped := res.skipped ++ [(t, 0)],
                 errors := res.errors ++
                   ["Table " ++ t ++ " does not exist in database"] })
      else
        let (rows', imp, skp, errs) :=
          insertRows merge t (pkOf t) tbl.schema tbl.notNull tbl.rows rows
        (setTable db t { tbl with rows := rows' },
         { res with
             imported := res.imported ++ [(t, imp)],
             skipped := res.skipped ++ [(t, skp)],
             errors := res.errors ++ errs })

/-- Body of the import transaction (sync.js:304-370). -/
def importBody (db : Store) (tbls : List (String × List Row))
    (merge : Bool) : Store × ImportResult :=
  let db0 := if merge then db else clearTables db
  importOrder.foldl (importOneTable merge tbls)
    (db0, { success := true, imported := [], errors := [], skipped := [] })

/-- `importDatabaseData` (sync.js:274-381) with an injected transaction
fault: `txFault = some msg` models the transaction driver throwing (for
example at commit time), in which case better-sqlite3 rolls the store
back to its pre-transaction state while the closure's `result` object
keeps its mutations and the catch block records the failure
(sync.js:372-378). -/
def importRun (db : Store) (data : Doc) (merge : Bool)
    (txFault : Option String) : Store × ImportResult :=
  match data.tables with
  | none =>
    (db, { success := false, imported := [],
           errors := ["Invalid backup format: missing tables"],
           skipped := [] })
  | some tbls =>
    let (db', res) := importBody db tbls merge
    match txFault with
    | some msg =>
      (db, { res with
               success := false,
               errors := res.errors ++ ["Transaction failed: " ++ msg] })
    | none => (db', res)

/-- `importDatabaseData` under a fault-free transaction driver. -/
def importDatabaseData (db : Store) (data : Doc) (merge : Bool) :
    Store × ImportResult :=
  importRun db data merge none

/-- Result of the bidirectional sync route (sync.js:860-866);
`pushResult` carries the uploaded document. -/
structure SyncResult where
  pulled : Bool
  pushed : Bool
  pullResult : Option ImportResult
  backupExisted : Bool
deriving DecidableEq, Repr

/-- `POST /api/sync/sync` (sync.js:853-917): pull the remote backup with a
merge import when one exists, then unconditionally export the (merged)
store and upload it.  Returns the final store, the document now held by
the remote backup object, and the route's result record. -/
def runSync (db : Store) (remote : Option Doc) (txFault : Option String) :
    Store × Doc × SyncResult :=
  match remote with
  | some backup =>
    let (db', ir) := importRun db backup true txFault
    let doc := exportDatabaseData db'
    (db', doc,
     { pulled := ir.success, pushed := true,
       pullResult := some ir, backupExisted := true })
  | none =>
    let doc := exportDatabaseData db
    (db, doc,
     { pulled := false, pushed := true,
       pullResult := none, backupExisted := false })

/-- A saved OAuth token file: only the `scope` field matters to the
loader's validation (sync.js:138-147). -/
structure Token where
  scope : Option String
deriving DecidableEq, Repr

/-- `sub` occurs at the head of `l`. -/
def leadsWith : List Char → List Char → Bool
  | [], _ => true
  | _ :: _, [] => false
  | c :: cs, d :: ds => (c == d) && leadsWith cs ds

/-- JavaScript `String.includes`: `sub` occurs contiguously in `l`. -/
def listContainsSub (sub : List Char) : List Char → Bool
  | [] => sub.isEmpty
  | c :: t => leadsWith sub (c :: t) || listContainsSub sub t

/-- JavaScript `split(' ')`: split on every single space, keeping empty
parts. -/
def splitSpaces : List Char → List (List Char)
  | [] => [[]]
  | c :: t =>
    if c = ' ' then [] :: splitSpaces t
    else
      match splitSpaces t with
      | [] => [[c]]
      | h :: r => (c :: h) :: r

/-- Scope validation of `loadSavedToken` (sync.js:139-140): split the
scope string on spaces and look for a part containing `drive.appdata`. -/
def hasAppDataScope (scope : String) : Bool :=
  (splitSpaces scope.data).any
    (fun s => listContainsSub "drive.appdata".data s)

/-- `loadSavedToken` (sync.js:129-158) as a function of the token file's
state: returns the file state afterwards and the loaded token (or none).
A token whose `scope` field is present but lacks the `drive.appdata`
marker is deleted and `null` is returned; a token with no `scope` field
skips validation entirely and is returned as-is. -/
def loadSavedToken (file : Option Token) : Option Token × Option Token :=
  match file with
  | none => (none, none)
  | some tok =>
    match tok.scope with
    | none => (some tok, some tok)
    | some sc =>
      if hasAppDataScope sc then (some tok, some tok)
      else (none, none)

/-! ### Characterization devices

Store-only projections of the import loop, used to state what the import
does to each individual table. -/

/-- Store projection of the per-table row loop. -/
def insertRowsStore (merge : Bool) (t : String)
    (pk schema notNull : List String)
    (rows : List Row) (docRows : List Row) : List Row :=
  docRows.foldl
    (fun rs row => (processRow merge t pk schema notNull rs row).1) rows

/-- Store projection of one merge-mode row: an insertable row upserts its
filled form, any other row leaves the table untouched. -/
def mergeStep (pk schema notNull : List String)
    (rs : List Row) (row : Row) : List Row :=
  if insertable schema notNull row then
    upsertRow pk rs (fillRow schema row)
  else rs

/-- What the import does to one table's entry, as a function of the
document and the table's pre-import state. -/
def tableOutcome (merge : Bool) (tbls : List (String × List Row))
    (t : String) (ot : Option Table) : Option Table :=
  match alookup tbls t with
  | none => ot
  | some rows =>
    match ot with
    | none => none
    | some tbl =>
      if tbl.schema.isEmpty then some tbl
      else some { tbl with
                    rows := insertRowsStore merge t (pkOf t) tbl.schema
                              tbl.notNull tbl.rows rows }

/-- A two-column `interns` row, for concrete scenarios. -/
def rowWith (i : Int) (v : Value) : Row :=
  [("id", Value.vint i), ("name", v)]

/-- A store holding only the `interns` table, for concrete scenarios; the
`name` column is NOT NULL (index.js:73). -/
def internsStore (rows : List Row) : Store :=
  [("interns",
    { schema := ["id", "name"], notNull := ["name"], rows := rows })]

/-! ## Basic lemmas about the store embedding -/

theorem alookup_map_self {g : String → List Row} (ts : List String)
    (t : String) (ht : t ∈ ts) :
    alookup (ts.map (fun x => (x, g x))) t = some (g t) := by
  induction ts with
  | nil => cases ht
  | cons a ts ih =>
    rcases List.mem_cons.mp ht with rfl | hmem
    · simp [alookup]
    · by_cases hat : a = t
      · subst hat; simp [alookup]
      · simpa [alookup, hat] using ih hmem

theorem findTable_setTable_self {db : Store} {t : String} {tbl0 : Table}
    (h : findTable db t = some tbl0) (tbl : Table) :
    findTable (setTable db t tbl) t = some tbl := by
  induction db with
  | nil => simp [findTable, alookup] at h
  | cons p db ih =>
    obtain ⟨n, tb⟩ := p
    by_cases hn : n = t
    · subst hn; simp [setTable, findTable, alookup]
    · simp only [findTable, alookup, if_neg hn] at h
      simpa [setTable, findTable, alookup, hn] using ih h

theorem findTable_setTable_ne {db : Store} {t t' : String} (tbl : Table)
    (h : t ≠ t') : findTable (setTable db t' tbl) t = findTable db t := by
  induction db with
  | nil => simp [setTable]
  | cons p db ih =>
    obtain ⟨n, tb⟩ := p
    by_cases hn : n = t'
    · subst hn
      have hnt : ¬n = t := fun hc => h hc.symm
      simp [setTable, findTable, alookup, hnt]
    · by_cases hnt : n = t
      · simp [setTable, findTable, alookup, hn, hnt, h]
      · simpa [setTable, findTable, alookup, hn, hnt] using ih

theorem findTable_clearStep_self (db : Store) (t : String) :
    findTable (clearStep db t) t
      = (findTable db t).map (fun tbl => { tbl with rows := [] }) := by
  unfold clearStep
  cases h : findTable db t with
  | none => simp [h]
  | some tbl => simp [findTable_setTable_self h]

theorem findTable_clearStep_ne (db : Store) {t t' : String} (h : t ≠ t') :
    findTable (clearStep db t') t = findTable db t := by
  unfold clearStep
  cases h' : findTable db t' with
  | none => rfl
  | some tbl => simp [findTable_setTable_ne _ h]

theorem findTable_foldl_clearStep (ts : List String) (db : Store)
    (t : String) :
    findTable (ts.foldl clearStep db) t
      = if t ∈ ts then (findTable db t).map (fun tbl => { tbl with rows := [] })
        else findTable db t := by
  induction ts generalizing db with
  | nil => simp
  | cons a ts ih =>
    by_cases hat : t = a
    · subst hat
      simp only [List.foldl_cons, ih, List.mem_cons, true_or, if_pos,
        findTable_clearStep_self]
      by_cases hts : t ∈ ts
      · simp only [if_pos hts]
        cases findTable db t <;> simp
      · simp [hts]
    · simp only [List.foldl_cons, ih, findTable_clearStep_ne db hat,
        List.mem_cons]
      by_cases hts : t ∈ ts
      · simp [hts]
      · simp [hts, hat]

theorem findTable_clearTables (db : Store) (t : String) :
    findTable (clearTables db) t
      = if t ∈ importOrder
        then (findTable db t).map (fun tbl => { tbl with rows := [] })
        else findTable db t := by
  unfold clearTables
  rw [findTable_foldl_clearStep]
  simp only [List.mem_reverse]

/-! ## Projection and characterization of the import loop -/

theorem insertStep_fst (m : Bool) (t : String)
    (pk schema notNull : List String) (rs : List Row) (i s : Nat)
    (errs : List String) (row : Row) :
    (insertStep m t pk schema notNull (rs, i, s, errs) row).1
      = (processRow m t pk schema notNull rs row).1 := by
  rcases h : processRow m t pk schema notNull rs row with ⟨rs', out⟩
  cases out <;> simp [insertStep, h]

theorem foldl_insertStep_fst (m : Bool) (t : String)
    (pk schema notNull : List String) (docRows : List Row) :
    ∀ (rs : List Row) (i s : Nat) (errs : List String),
      (docRows.foldl (insertStep m t pk schema notNull) (rs, i, s, errs)).1
        = insertRowsStore m t pk schema notNull rs docRows := by
  induction docRows with
  | nil => intro rs i s errs; rfl
  | cons d ds ih =>
    intro rs i s errs
    rcases hstep : insertStep m t pk schema notNull (rs, i, s, errs) d
      with ⟨rs', i', s', errs'⟩
    have hfst : rs' = (processRow m t pk schema notNull rs d).1 := by
      have h1 := insertStep_fst m t pk schema notNull rs i s errs d
      rw [hstep] at h1
      exact h1
    simp only [List.foldl_cons, hstep, ih, insertRowsStore, hfst]

theorem insertRows_fst (m : Bool) (t : String)
    (pk schema notNull : List String) (rows docRows : List Row) :
    (insertRows m t pk schema notNull rows docRows).1
      = insertRowsStore m t pk schema notNull rows docRows := by
  unfold insertRows
  exact foldl_insertStep_fst m t pk schema notNull docRows rows 0 0 []

theorem importOneTable_fst_ne {m : Bool} {tbls : List (String × List Row)}
    (acc : Store × ImportResult) {t t' : String} (h : t ≠ t') :
    findTable ((importOneTable m tbls acc t').1) t = findTable acc.1 t := by
  obtain ⟨db, res⟩ := acc
  simp only [importOneTable]
  cases alookup tbls t' with
  | none => rfl
  | some rows =>
    cases hdb : findTable db t' with
    | none => simp [hdb]
    | some tbl =>
      simp only [hdb]
      by_cases hsch : tbl.schema.isEmpty
      · simp [hsch]
      · simp [hsch, findTable_setTable_ne _ h]

theorem importOneTable_fst_self (m : Bool) (tbls : List (String × List Row))
    (db : Store) (res : ImportResult) (t : String) :
    findTable ((importOneTable m tbls (db, res) t).1) t
      = tableOutcome m tbls t (findTable db t) := by
  simp only [importOneTable, tableOutcome]
  cases alookup tbls t with
  | none => rfl
  | some rows =>
    cases hdb : findTable db t with
    | none => simp [hdb]
    | some tbl =>
      simp only [hdb]
      by_cases hsch : tbl.schema.isEmpty
      · simp [hsch, hdb]
      · simp [hsch, findTable_setTable_self hdb, insertRows_fst]

theorem findTable_foldl_importOne_not_mem {m : Bool}
    {tbls : List (String × List Row)} (ts : List String) (t : String)
    (h : t ∉ ts) :
    ∀ acc : Store × ImportResult,
      findTable ((ts.foldl (importOneTable m tbls) acc).1) t
        = findTable acc.1 t := by
  induction ts with
  | nil => intro acc; rfl
  | cons a ts ih =>
    intro acc
    have hta : t ≠ a := fun hc => h (hc ▸ List.mem_cons_self a ts)
    have hts : t ∉ ts := fun hc => h (List.mem_cons_of_mem a hc)
    simp only [List.foldl_cons]
    rw [ih hts, importOneTable_fst_ne _ hta]

theorem findTable_foldl_importOne {m : Bool}
    {tbls : List (String × List Row)} (ts : List String) (hnd : ts.Nodup)
    (t : String) :
    ∀ (db : Store) (res : ImportResult),
      findTable ((ts.foldl (importOneTable m tbls) (db, res)).1) t
        = if t ∈ ts then tableOutcome m tbls t (findTable db t)
          else findTable db t := by
  induction ts with
  | nil => intro db res; simp
  | cons a ts ih =>
    intro db res
    have hand : a ∉ ts := (List.nodup_cons.mp hnd).1
    have hnd' : ts.Nodup := (List.nodup_cons.mp hnd).2
    rcases h1 : importOneTable m tbls (db, res) a with ⟨db₁, res₁⟩
    by_cases hta : t = a
    · subst hta
      simp only [List.foldl_cons, h1, List.mem_cons, true_or, if_pos]
      rw [findTable_foldl_importOne_not_mem ts t hand (db₁, res₁)]
      have := importOneTable_fst_self m tbls db res t
      rw [h1] at this
      exact this
    · simp only [List.foldl_cons, h1]
      rw [ih hnd' db₁ res₁]
      have hfr : findTable db₁ t = findTable db t := by
        have := @importOneTable_fst_ne m tbls (db, res) t a hta
        rw [h1] at this
        exact this
      rw [hfr]
      simp [List.mem_cons, hta]

theorem importOneTable_skip {m : Bool} {tbls : List (String × List Row)}
    {t : String} (acc : Store × ImportResult)
    (h : alookup tbls t = none) : importOneTable m tbls acc t = acc := by
  obtain ⟨db, res⟩ := acc
  simp [importOneTable, h]

theorem foldl_importOne_skip {m : Bool} {tbls : List (String × List Row)}
    (ts : List String) (h : ∀ t' ∈ ts, alookup tbls t' = none)
    (acc : Store × ImportResult) :
    ts.foldl (importOneTable m tbls) acc = acc := by
  induction ts generalizing acc with
  | nil => rfl
  | cons a ts ih =>
    have ha := h a (List.mem_cons_self a ts)
    simp only [List.foldl_cons, importOneTable_skip acc ha]
    exact ih (fun t' ht' => h t' (List.mem_cons_of_mem a ht')) acc

theorem foldl_importOne_single {m : Bool} {tbls : List (String × List Row)}
    (ts : List String) (hnd : ts.Nodup) (t : String) (ht : t ∈ ts)
    (h : ∀ t' ∈ ts, t' ≠ t → alookup tbls t' = none)
    (acc : Store × ImportResult) :
    ts.foldl (importOneTable m tbls) acc = importOneTable m tbls acc t := by
  induction ts generalizing acc with
  | nil => cases ht
  | cons a ts ih =>
    have hand : a ∉ ts := (List.nodup_cons.mp hnd).1
    have hnd' : ts.Nodup := (List.nodup_cons.mp hnd).2
    rcases List.mem_cons.mp ht with rfl | hmem
    · simp only [List.foldl_cons]
      apply foldl_importOne_skip
      intro t' ht'
      exact h t' (List.mem_cons_of_mem t ht') (fun hc => hand (hc ▸ ht'))
    · have ha : alookup tbls a = none :=
        h a (List.mem_cons_self a ts) (fun hc => hand (hc ▸ hmem))
      simp only [List.foldl_cons, importOneTable_skip acc ha]
      exact ih hnd' hmem (fun t' ht' hne => h t' (List.mem_cons_of_mem a ht') hne) acc

theorem importOrder_nodup : importOrder.Nodup := by decide

theorem importDatabaseData_fst_eq_body (db : Store)
    (tbls : List (String × List Row)) (m : Bool) :
    (importDatabaseData db { tables := some tbls } m).1
      = (importOrder.foldl (importOneTable m tbls)
          ((if m then db else clearTables db),
           { success := true, imported := [], errors := [],
             skipped := [] })).1 := rfl

theorem findTable_importDatabaseData (db : Store)
    (tbls : List (String × List Row)) (m : Bool) (t : String) :
    findTable ((importDatabaseData db { tables := some tbls } m).1) t
      = if t ∈ importOrder
        then tableOutcome m tbls t
               (findTable (if m then db else clearTables db) t)
        else findTable (if m then db else clearTables db) t := by
  rw [importDatabaseData_fst_eq_body,
    findTable_foldl_importOne importOrder importOrder_nodup]

theorem mem_exportTables_of_mem_importOrder {t : String}
    (h : t ∈ importOrder) : t ∈ exportTables := by
  simp only [importOrder, List.mem_cons, List.not_mem_nil, or_false] at h
  rcases h with rfl|rfl|rfl|rfl|rfl|rfl|rfl|rfl|rfl|rfl|rfl <;> decide

theorem fillRow_of_keys_eq (r : Row) :
    ∀ schema : List String, r.map Prod.fst = schema → schema.Nodup →
      fillRow schema r = r := by
  induction r with
  | nil =>
    intro schema h _
    subst h
    rfl
  | cons p r' ih =>
    intro schema h hnd
    obtain ⟨c, v⟩ := p
    subst h
    simp only [List.map_cons, List.nodup_cons] at hnd
    obtain ⟨hc, hnd'⟩ := hnd
    simp only [fillRow, List.map_cons]
    congr 1
    · simp [alookup]
    · have hcong : ∀ c' ∈ r'.map Prod.fst,
          (c', (alookup ((c, v) :: r') c').getD Value.vnull)
            = (c', (alookup r' c').getD Value.vnull) := by
        intro c' hc'
        have hne : ¬c = c' := fun hcc => hc (hcc ▸ hc')
        simp [alookup, hne]
      rw [List.map_congr_left hcong]
      exact ih _ rfl hnd'

theorem filterCols_of_keys_eq {r : Row} {schema : List String}
    (h : r.map Prod.fst = schema) : filterCols schema r = schema := by
  unfold filterCols
  rw [h]
  apply List.filter_eq_self.mpr
  intro c hc
  simpa using hc

theorem insertRowsStore_replace (t : String)
    (pk schema notNull : List String) (hne : schema ≠ [])
    (hnd : schema.Nodup) (docRows : List Row)
    (hkeys : ∀ r ∈ docRows, r.map Prod.fst = schema
      ∧ nullViolation schema notNull r = none) :
    ∀ rows0 : List Row,
      insertRowsStore false t pk schema notNull rows0 docRows
        = rows0 ++ docRows := by
  induction docRows with
  | nil => intro rows0; simp [insertRowsStore]
  | cons d ds ih =>
    intro rows0
    have hd := (hkeys d (List.mem_cons_self d ds)).1
    have hviol := (hkeys d (List.mem_cons_self d ds)).2
    have hfilter : filterCols schema d = schema := filterCols_of_keys_eq hd
    have hfill : fillRow schema d = d := fillRow_of_keys_eq _ _ hd hnd
    have hproc : (processRow false t pk schema notNull rows0 d).1
        = rows0 ++ [d] := by
      unfold processRow
      rw [hviol, hfilter, hfill]
      have hie : schema.isEmpty = false := by
        cases hsch : schema with
        | nil => exact absurd hsch hne
        | cons a l => rfl
      rw [hie]
      rfl
    simp only [insertRowsStore, List.foldl_cons]
    rw [hproc]
    have := ih (fun r hr => hkeys r (List.mem_cons_of_mem d hr)) (rows0 ++ [d])
    simp only [insertRowsStore] at this
    rw [this, List.append_assoc]
    rfl

/-! ## Claim theorems -/

/-- C9: for every store and policy, a document with no `tables` field
makes `importAll` return `success:false` with the single error
`Invalid backup format: missing tables`, and the store is left unchanged
(in particular no replace-mode deletion happens). -/
theorem C9_missing_tables_guard (db : Store) (data : Doc) (merge : Bool)
    (h : data.tables = none) :
    importDatabaseData db data merge
      = (db, { success := false, imported := [],
               errors := ["Invalid backup format: missing tables"],
               skipped := [] }) := by
  obtain ⟨tables⟩ := data
  simp only at h
  subst h
  rfl

theorem C9_missing_tables_guard_witness :
    ({ tables := none } : Doc).tables = none
    ∧ importDatabaseData (internsStore [rowWith 1 (Value.vtext "a")])
        { tables := none } false
      = (internsStore [rowWith 1 (Value.vtext "a")],
         { success := false, imported := [],
           errors := ["Invalid backup format: missing tables"],
           skipped := [] }) :=
  ⟨rfl, C9_missing_tables_guard _ _ false rfl⟩

/-- C3: if the transaction driver itself throws during `importAll` (for
example at commit time), the store is rolled back completely unchanged and
the result is `success:false` with a non-empty error list containing the
transaction-level error. -/
theorem C3_transaction_fault_rollback (db : Store) (data : Doc)
    (tbls : List (String × List Row)) (merge : Bool) (msg : String)
    (h : data.tables = some tbls) :
    (importRun db data merge (some msg)).1 = db
    ∧ (importRun db data merge (some msg)).2.success = false
    ∧ ("Transaction failed: " ++ msg)
        ∈ (importRun db data merge (some msg)).2.errors
    ∧ (importRun db data merge (some msg)).2.errors ≠ [] := by
  obtain ⟨tables⟩ := data
  simp only at h
  subst h
  rcases hb : importBody db tbls merge with ⟨db', res⟩
  have h1 : importRun db { tables := some tbls } merge (some msg)
      = (db,
         { success := false, imported := res.imported,
           errors := res.errors ++ ["Transaction failed: " ++ msg],
           skipped := res.skipped }) := by
    simp only [importRun, hb]
  rw [h1]
  exact ⟨rfl, rfl, List.mem_append_right _ (List.mem_singleton.mpr rfl),
    by simp⟩

theorem C3_transaction_fault_rollback_witness :
    ({ tables := some [("interns", [rowWith 2 (Value.vtext "x")])] }
        : Doc).tables
      = some [("interns", [rowWith 2 (Value.vtext "x")])]
    ∧ ((importRun (internsStore [rowWith 1 (Value.vtext "a")])
          { tables := some [("interns", [rowWith 2 (Value.vtext "x")])] }
          true (some "disk full")).1
        = internsStore [rowWith 1 (Value.vtext "a")]
       ∧ (importRun (internsStore [rowWith 1 (Value.vtext "a")])
            { tables := some [("interns", [rowWith 2 (Value.vtext "x")])] }
            true (some "disk full")).2.success = false
       ∧ ("Transaction failed: " ++ "disk full")
           ∈ (importRun (internsStore [rowWith 1 (Value.vtext "a")])
               { tables := some [("interns", [rowWith 2 (Value.vtext "x")])] }
               true (some "disk full")).2.errors
       ∧ (importRun (internsStore [rowWith 1 (Value.vtext "a")])
            { tables := some [("interns", [rowWith 2 (Value.vtext "x")])] }
            true (some "disk full")).2.errors ≠ []) :=
  ⟨rfl, C3_transaction_fault_rollback _ _ _ true "disk full" rfl⟩

/-- C10: in replace mode the import clears every canonical table first, so
a canonical table with no entry in the document ends up empty even if it
held rows beforehand. -/
theorem C10_replace_clears_absent_tables (db : Store)
    (tbls : List (String × List Row)) (t : String) (tbl : Table)
    (ht : t ∈ importOrder) (hdoc : alookup tbls t = none)
    (htbl : findTable db t = some tbl) :
    findTable ((importDatabaseData db { tables := some tbls } false).1) t
      = some { schema := tbl.schema, notNull := tbl.notNull,
               rows := [] } := by
  rw [findTable_importDatabaseData, if_pos ht]
  have hred : (if false then db else clearTables db) = clearTables db := rfl
  rw [hred, findTable_clearTables, if_pos ht, htbl]
  simp [tableOutcome, hdoc]

theorem C10_replace_clears_absent_tables_witness :
    ("interns" ∈ importOrder
     ∧ alookup ([] : List (String × List Row)) "interns" = none
     ∧ findTable (internsStore [rowWith 1 (Value.vtext "a")]) "interns"
         = some { schema := ["id", "name"], notNull := ["name"],
                  rows := [rowWith 1 (Value.vtext "a")] })
    ∧ findTable ((importDatabaseData
          (internsStore [rowWith 1 (Value.vtext "a")])
          { tables := some [] } false).1) "interns"
        = some { schema := ["id", "name"], notNull := ["name"],
                 rows := [] } :=
  ⟨⟨by decide, rfl, rfl⟩,
   C10_replace_clears_absent_tables _ [] "interns"
     { schema := ["id", "name"], notNull := ["name"],
       rows := [rowWith 1 (Value.vtext "a")] }
     (by decide) rfl rfl⟩

/-- C7 counterexample: the claim says `exportAll` walks the canonical list
(`settings` first); on any store, for example the empty one, the document
keys come out in the exporter's own order, `interns` first. -/
theorem C7_export_order_cex :
    ¬ (((exportDatabaseData []).tables.getD []).map Prod.fst
         = importOrder) := by
  decide

/-- C7 amended: `exportAll` walks the tables in the exporter's list order
— interns, intern_files, intern_notes, projects, project_assignments,
tasks, events, event_assignments, weekly_reports, settings, activity_log —
placing each table's full row list under `tables[tableName]` in exactly
that order; that list is a permutation of the canonical import list. -/
theorem C7_export_order_amended (db : Store) :
    ((exportDatabaseData db).tables.getD []).map Prod.fst = exportTables
    ∧ exportTables.Perm importOrder := by
  constructor
  · rfl
  · decide

/-- C8 counterexample: a saved token with no `scope` field at all is NOT
treated as absent — `loadSavedToken` returns it unchanged and keeps the
file, although the claim requires it to be cleared. -/
theorem C8_scope_validation_cex :
    (loadSavedToken (some { scope := none })).2 ≠ none
    ∧ (loadSavedToken (some { scope := none })).1 ≠ none := by
  decide

/-- C8 amended: a token whose `scope` field is present but lacks the
`drive.appdata` marker is cleared and the load returns null (forcing
re-authentication); a token with no `scope` field skips validation and is
returned as-is. -/
theorem C8_scope_validation_amended (tok : Token) (sc : String)
    (hs : tok.scope = some sc) (hb : hasAppDataScope sc = false) :
    loadSavedToken (some tok) = (none, none) := by
  simp [loadSavedToken, hs, hb]

theorem C8_scope_validation_amended_witness :
    (({ scope := some "profile email" } : Token).scope
        = some "profile email"
     ∧ hasAppDataScope "profile email" = false)
    ∧ loadSavedToken (some { scope := some "profile email" })
        = (none, none) :=
  ⟨⟨rfl, by decide⟩,
   C8_scope_validation_amended _ "profile email" rfl (by decide)⟩

/-- C6: a failed pull-phase import (`success:false`) does not abort the
sync: the push phase still runs on the post-import store, and the result
records `pulled:false`, `pushed:true` with the failed import result in
`pullResult`. -/
theorem C6_pull_failure_still_pushes (db : Store) (backup : Doc)
    (fault : Option String)
    (h : (importRun db backup true fault).2.success = false) :
    (runSync db (some backup) fault).2.2.pulled = false
    ∧ (runSync db (some backup) fault).2.2.pushed = true
    ∧ (runSync db (some backup) fault).2.2.pullResult
        = some (importRun db backup true fault).2
    ∧ (runSync db (some backup) fault).2.1
        = exportDatabaseData (importRun db backup true fault).1
    ∧ (runSync db (some backup) fault).2.2.backupExisted = true := by
  rcases hr : importRun db backup true fault with ⟨db', ir⟩
  rw [hr] at h
  have h1 : runSync db (some backup) fault
      = (db',
         (exportDatabaseData db',
          { pulled := ir.success, pushed := true,
            pullResult := some ir, backupExisted := true })) := by
    simp only [runSync, hr]
  rw [h1]
  exact ⟨h, rfl, rfl, rfl, rfl⟩

theorem C6_pull_failure_still_pushes_witness :
    (importRun (internsStore []) { tables := none } true none).2.success
      = false
    ∧ ((runSync (internsStore []) (some { tables := none }) none).2.2.pulled
         = false
       ∧ (runSync (internsStore []) (some { tables := none })
            none).2.2.pushed = true
       ∧ (runSync (internsStore []) (some { tables := none })
            none).2.2.pullResult
           = some (importRun (internsStore []) { tables := none }
               true none).2
       ∧ (runSync (internsStore []) (some { tables := none }) none).2.1
           = exportDatabaseData
               (importRun (internsStore []) { tables := none } true none).1
       ∧ (runSync (internsStore []) (some { tables := none })
            none).2.2.backupExisted = true) :=
  ⟨rfl, C6_pull_failure_still_pushes _ _ none rfl⟩

/-- C2: with local rows A and B and a remote backup holding B with other
field values plus a new row C, `runSync` merges the remote version of B
over the local one, adds C, keeps A, and then pushes that merged row set
so the remote object afterwards holds exactly A, B(remote), C.  The
remote rows carry non-null names, as rows exported from a real store must
(`interns.name` is NOT NULL, index.js:73): a null name would make the
upsert throw and the row be skipped instead. -/
theorem C2_sync_with_existing_backup (va vb vb' vc : Value)
    (_hdiff : vb ≠ vb') (hb' : vb' ≠ Value.vnull)
    (hc : vc ≠ Value.vnull) :
    (runSync (internsStore [rowWith 1 va, rowWith 2 vb])
        (some { tables := some [("interns",
            [rowWith 2 vb', rowWith 3 vc])] }) none).1
      = internsStore [rowWith 1 va, rowWith 2 vb', rowWith 3 vc]
    ∧ alookup (((runSync (internsStore [rowWith 1 va, rowWith 2 vb])
          (some { tables := some [("interns",
              [rowWith 2 vb', rowWith 3 vc])] }) none).2.1).tables.getD [])
        "interns"
      = some [rowWith 1 va, rowWith 2 vb', rowWith 3 vc]
    ∧ (runSync (internsStore [rowWith 1 va, rowWith 2 vb])
        (some { tables := some [("interns",
            [rowWith 2 vb', rowWith 3 vc])] }) none).2.2.pulled = true
    ∧ (runSync (internsStore [rowWith 1 va, rowWith 2 vb])
        (some { tables := some [("interns",
            [rowWith 2 vb', rowWith 3 vc])] }) none).2.2.pushed = true := by
  rcases vb' with _ | n' | s'
  · exact absurd rfl hb'
  · rcases vc with _ | m' | u'
    · exact absurd rfl hc
    · exact ⟨rfl, rfl, rfl, rfl⟩
    · exact ⟨rfl, rfl, rfl, rfl⟩
  · rcases vc with _ | m' | u'
    · exact absurd rfl hc
    · exact ⟨rfl, rfl, rfl, rfl⟩
    · exact ⟨rfl, rfl, rfl, rfl⟩

theorem C2_sync_with_existing_backup_witness :
    (Value.vtext "b-local" ≠ Value.vtext "b-remote")
    ∧ ((runSync (internsStore [rowWith 1 (Value.vtext "a"),
           rowWith 2 (Value.vtext "b-local")])
         (some { tables := some [("interns",
             [rowWith 2 (Value.vtext "b-remote"),
              rowWith 3 (Value.vtext "c")])] }) none).1
        = internsStore [rowWith 1 (Value.vtext "a"),
            rowWith 2 (Value.vtext "b-remote"),
            rowWith 3 (Value.vtext "c")]) :=
  ⟨by decide,
   (C2_sync_with_existing_backup (Value.vtext "a") (Value.vtext "b-local")
      (Value.vtext "b-remote") (Value.vtext "c") (by decide) (by decide)
      (by decide)).1⟩

/-- C1: importing the export of a populated store into an empty store with
identical schemas under policy merge:false reproduces every canonical
table exactly (same columns, same values, same order). -/
theorem C1_export_import_round_trip (populated empty : Store)
    (h : ∀ t ∈ importOrder,
      (findTable populated t = none → findTable empty t = none)
      ∧ (∀ tbl : Table, findTable populated t = some tbl →
          findTable empty t
            = some { schema := tbl.schema, notNull := tbl.notNull,
                     rows := [] }
          ∧ tbl.schema ≠ [] ∧ tbl.schema.Nodup
          ∧ ∀ r ∈ tbl.rows, r.map Prod.fst = tbl.schema
              ∧ nullViolation tbl.schema tbl.notNull r = none)) :
    ∀ t ∈ importOrder,
      findTable ((importDatabaseData empty
          (exportDatabaseData populated) false).1) t
        = findTable populated t := by
  intro t ht
  have hexp : exportDatabaseData populated
      = { tables := some (exportTables.map
            (fun x => (x, exportRows populated x))) } := rfl
  rw [hexp, findTable_importDatabaseData, if_pos ht]
  have hred : (if false then empty else clearTables empty)
      = clearTables empty := rfl
  rw [hred, findTable_clearTables, if_pos ht]
  have hlook : alookup (exportTables.map
        (fun x => (x, exportRows populated x))) t
      = some (exportRows populated t) :=
    alookup_map_self _ _ (mem_exportTables_of_mem_importOrder ht)
  rcases hp : findTable populated t with _ | tbl
  · have he := (h t ht).1 hp
    rw [he]
    simp [tableOutcome, hlook]
  · obtain ⟨sch, nn, rows⟩ := tbl
    obtain ⟨hemp, hne, hnd, hwf⟩ := (h t ht).2 _ hp
    have hrows : exportRows populated t = rows := by
      simp [exportRows, hp]
    have hie : sch.isEmpty = false := by
      cases hsch : sch with
      | nil => exact absurd hsch hne
      | cons a l => rfl
    rw [hemp]
    show tableOutcome false
        (exportTables.map (fun x => (x, exportRows populated x))) t
        (some { schema := sch, notNull := nn, rows := [] })
      = some { schema := sch, notNull := nn, rows := rows }
    simp only [tableOutcome, hlook, hrows, hie, Bool.false_eq_true,
      if_false]
    rw [insertRowsStore_replace _ _ _ _ hne hnd _ hwf]
    rfl

theorem C1_export_import_round_trip_witness :
    "interns" ∈ importOrder
    ∧ findTable ((importDatabaseData (internsStore [])
        (exportDatabaseData (internsStore [rowWith 1 (Value.vtext "a")]))
        false).1) "interns"
      = findTable (internsStore [rowWith 1 (Value.vtext "a")]) "interns" :=
  ⟨by decide,
   C1_export_import_round_trip
     (internsStore [rowWith 1 (Value.vtext "a")]) (internsStore [])
     (by
       intro t ht
       simp only [importOrder, List.mem_cons, List.not_mem_nil,
         or_false] at ht
       rcases ht with rfl|rfl|rfl|rfl|rfl|rfl|rfl|rfl|rfl|rfl|rfl <;>
       first
        | (refine ⟨fun hnone => absurd hnone (by decide),
             fun tbl htbl => ?_⟩
           have hconc : findTable
               (internsStore [rowWith 1 (Value.vtext "a")]) "interns"
               = some { schema := ["id", "name"], notNull := ["name"],
                        rows := [rowWith 1 (Value.vtext "a")] } := rfl
           rw [hconc] at htbl
           have h2 := (Option.some.inj htbl).symm
           subst h2
           exact ⟨rfl, by decide, by decide, by decide⟩)
        | (refine ⟨fun hnone => rfl, fun tbl htbl => ?_⟩
           simp [internsStore, findTable, alookup] at htbl))
     "interns" (by decide)⟩

/-! ## Lemmas for the schema-narrowing claim -/

theorem alookup_single_self {α : Type} (x : α) (t : String) :
    alookup [(t, x)] t = some x := by
  simp [alookup]

theorem alookup_single_ne {α : Type} (x : α) {t t' : String}
    (h : ¬t = t') : alookup [(t, x)] t' = none := by
  simp [alookup, h]

theorem alookup_filter_schema (schema : List String) (row : Row)
    (c : String) (hc : c ∈ schema) :
    alookup (row.filter (fun p => schema.contains p.1)) c
      = alookup row c := by
  induction row with
  | nil => rfl
  | cons p r ih =>
    obtain ⟨k, v⟩ := p
    by_cases hkc : k = c
    · subst hkc
      simp [List.filter_cons, hc, alookup]
    · by_cases hk : k ∈ schema <;>
        simpa [List.filter_cons, hk, alookup, hkc] using ih

theorem fillRow_filter_schema (schema : List String) (row : Row) :
    fillRow schema (row.filter (fun p => schema.contains p.1))
      = fillRow schema row := by
  unfold fillRow
  apply List.map_congr_left
  intro c hc
  rw [alookup_filter_schema schema row c hc]

theorem filterCols_filter_schema (schema : List String) (row : Row) :
    filterCols schema (row.filter (fun p => schema.contains p.1))
      = filterCols schema row := by
  unfold filterCols
  induction row with
  | nil => rfl
  | cons p r ih =>
    obtain ⟨k, v⟩ := p
    by_cases hk : k ∈ schema <;> simpa [List.filter_cons, hk] using ih

theorem nullViolation_filter_schema (schema notNull : List String)
    (row : Row) :
    nullViolation schema notNull
        (row.filter (fun p => schema.contains p.1))
      = nullViolation schema notNull row := by
  unfold nullViolation
  congr 1
  funext c
  by_cases hcs : c ∈ schema
  · rw [alookup_filter_schema schema row c hcs]
  · simp [hcs]

theorem processRow_filter_schema (m : Bool) (t : String)
    (pk schema notNull : List String) (rows : List Row) (row : Row) :
    processRow m t pk schema notNull rows
        (row.filter (fun p => schema.contains p.1))
      = processRow m t pk schema notNull rows row := by
  unfold processRow
  rw [filterCols_filter_schema, fillRow_filter_schema,
    nullViolation_filter_schema]

theorem insertStep_filter_schema (m : Bool) (t : String)
    (pk schema notNull : List String)
    (acc : List Row × Nat × Nat × List String) (row : Row) :
    insertStep m t pk schema notNull acc
        (row.filter (fun p => schema.contains p.1))
      = insertStep m t pk schema notNull acc row := by
  obtain ⟨rs, imp, skp, errs⟩ := acc
  dsimp only [insertStep]
  rw [processRow_filter_schema]

theorem importDatabaseData_eq_fold (db : Store)
    (tbls : List (String × List Row)) (m : Bool) :
    importDatabaseData db { tables := some tbls } m
      = importOrder.foldl (importOneTable m tbls)
          ((if m then db else clearTables db),
           { success := true, imported := [], errors := [],
             skipped := [] }) := rfl

/-- C5 counterexample: a snapshot row for `interns` carrying an `id` but
no `name` has a non-empty column intersection, yet the prepared
`INSERT OR REPLACE INTO interns (id) VALUES (?)` throws
`NOT NULL constraint failed: interns.name` (index.js:73) and the catch at
sync.js:361-365 counts the row in `skipped[interns]`, not
`imported[interns]` — contradicting the claim that any row with at least
one intersecting column is imported. -/
theorem C5_schema_narrowing_cex :
    filterCols ["id", "name"]
        [("id", Value.vint 1), ("legacy", Value.vtext "z")] ≠ []
    ∧ ¬(alookup (importDatabaseData (internsStore [])
          { tables := some [("interns",
              [[("id", Value.vint 1), ("legacy", Value.vtext "z")]])] }
          true).2.imported "interns" = some 1)
    ∧ alookup (importDatabaseData (internsStore [])
          { tables := some [("interns",
              [[("id", Value.vint 1), ("legacy", Value.vtext "z")]])] }
          true).2.imported "interns" = some 0
    ∧ alookup (importDatabaseData (internsStore [])
          { tables := some [("interns",
              [[("id", Value.vint 1), ("legacy", Value.vtext "z")]])] }
          true).2.skipped "interns" = some 1 := by
  decide

/-- C5 amended: a snapshot row with at least one column intersecting the
live schema is imported — using only the intersecting columns, so
dropping the non-intersecting ones changes nothing about the import —
and counted in `imported[table]`, provided the filtered insert also
satisfies the table's NOT NULL constraints; a row with empty intersection
is counted in `skipped[table]`; and a row whose filtered insert violates
a NOT NULL constraint is counted in `skipped[table]` with an error
recorded. -/
theorem C5_schema_narrowing_amended (db : Store) (t : String) (tbl : Table)
    (row : Row) (merge : Bool) (ht : t ∈ importOrder)
    (htbl : findTable db t = some tbl) (hs : tbl.schema ≠ []) :
    (filterCols tbl.schema row ≠ [] →
      nullViolation tbl.schema tbl.notNull row = none →
      alookup (importDatabaseData db { tables := some [(t, [row])] }
          merge).2.imported t = some 1
      ∧ alookup (importDatabaseData db { tables := some [(t, [row])] }
          merge).2.skipped t = some 0)
    ∧ (∀ c : String, filterCols tbl.schema row ≠ [] →
      nullViolation tbl.schema tbl.notNull row = some c →
      alookup (importDatabaseData db { tables := some [(t, [row])] }
          merge).2.imported t = some 0
      ∧ alookup (importDatabaseData db { tables := some [(t, [row])] }
          merge).2.skipped t = some 1
      ∧ ("Error importing " ++ t ++ " row: "
          ++ ("NOT NULL constraint failed: " ++ t ++ "." ++ c))
        ∈ (importDatabaseData db { tables := some [(t, [row])] }
            merge).2.errors)
    ∧ (filterCols tbl.schema row = [] →
      alookup (importDatabaseData db { tables := some [(t, [row])] }
          merge).2.imported t = some 0
      ∧ alookup (importDatabaseData db { tables := some [(t, [row])] }
          merge).2.skipped t = some 1)
    ∧ importDatabaseData db { tables := some [(t, [row])] } merge
        = importDatabaseData db
            { tables := some [(t, [row.filter
                (fun p => tbl.schema.contains p.1)])] } merge := by
  have hie : tbl.schema.isEmpty = false := by
    cases hsch : tbl.schema with
    | nil => exact absurd hsch hs
    | cons a l => rfl
  have hdb0 : findTable (if merge then db else clearTables db) t
      = some { schema := tbl.schema, notNull := tbl.notNull,
               rows := if merge then tbl.rows else [] } := by
    cases merge
    · show findTable (clearTables db) t
        = some { schema := tbl.schema, notNull := tbl.notNull, rows := [] }
      rw [findTable_clearTables, if_pos ht, htbl]
      rfl
    · exact htbl
  have hfold : ∀ r0 : Row,
      importDatabaseData db { tables := some [(t, [r0])] } merge
        = importOneTable merge [(t, [r0])]
            ((if merge then db else clearTables db),
             { success := true, imported := [], errors := [],
               skipped := [] }) t := by
    intro r0
    rw [importDatabaseData_eq_fold]
    exact foldl_importOne_single importOrder importOrder_nodup t ht
      (fun t' _ hne => alookup_single_ne _ (fun hc => hne hc.symm)) _
  have heval : ∀ r0 : Row,
      importOneTable merge [(t, [r0])]
          ((if merge then db else clearTables db),
           { success := true, imported := [], errors := [],
             skipped := [] }) t
        = (setTable (if merge then db else clearTables db) t
             { schema := tbl.schema, notNull := tbl.notNull,
               rows := (insertRows merge t (pkOf t) tbl.schema tbl.notNull
                 (if merge then tbl.rows else []) [r0]).1 },
           { success := true,
             imported := [(t, (insertRows merge t (pkOf t) tbl.schema
               tbl.notNull (if merge then tbl.rows else []) [r0]).2.1)],
             errors := (insertRows merge t (pkOf t) tbl.schema
               tbl.notNull (if merge then tbl.rows else []) [r0]).2.2.2,
             skipped := [(t, (insertRows merge t (pkOf t) tbl.schema
               tbl.notNull (if merge then tbl.rows else []) [r0]).2.2.1)] })
      := by
    intro r0
    simp only [importOneTable, alookup_single_self, hdb0, hie,
      Bool.false_eq_true, if_false, List.nil_append]
  have hstep : insertRows merge t (pkOf t) tbl.schema tbl.notNull
      (if merge then tbl.rows else [])
      [row.filter (fun p => tbl.schema.contains p.1)]
        = insertRows merge t (pkOf t) tbl.schema tbl.notNull
            (if merge then tbl.rows else []) [row] := by
    show insertStep merge t (pkOf t) tbl.schema tbl.notNull
        ((if merge then tbl.rows else []), 0, 0, [])
        (row.filter (fun p => tbl.schema.contains p.1))
      = insertStep merge t (pkOf t) tbl.schema tbl.notNull
          ((if merge then tbl.rows else []), 0, 0, []) row
    exact insertStep_filter_schema _ _ _ _ _ _ _
  refine ⟨?_, ?_, ?_, ?_⟩
  · intro hcols hviol
    have hf : (filterCols tbl.schema row).isEmpty = false := by
      cases hfc : filterCols tbl.schema row with
      | nil => exact absurd hfc hcols
      | cons a l => rfl
    have hpr1 : (processRow merge t (pkOf t) tbl.schema tbl.notNull
        (if merge then tbl.rows else []) row).2 = RowOutcome.imported := by
      unfold processRow
      rw [hf, hviol]
      cases merge <;> rfl
    have hins : insertRows merge t (pkOf t) tbl.schema tbl.notNull
        (if merge then tbl.rows else []) [row]
          = ((processRow merge t (pkOf t) tbl.schema tbl.notNull
               (if merge then tbl.rows else []) row).1, 1, 0, []) := by
      show insertStep merge t (pkOf t) tbl.schema tbl.notNull
          ((if merge then tbl.rows else []), 0, 0, []) row = _
      rcases hpr : processRow merge t (pkOf t) tbl.schema tbl.notNull
          (if merge then tbl.rows else []) row with ⟨rs', out⟩
      rw [hpr] at hpr1
      simp only at hpr1
      subst hpr1
      dsimp only [insertStep]
      rw [hpr]
    rw [hfold, heval, hins]
    exact ⟨alookup_single_self _ _, alookup_single_self _ _⟩
  · intro c hcols hviol
    have hf : (filterCols tbl.schema row).isEmpty = false := by
      cases hfc : filterCols tbl.schema row with
      | nil => exact absurd hfc hcols
      | cons a l => rfl
    have hpr : processRow merge t (pkOf t) tbl.schema tbl.notNull
        (if merge then tbl.rows else []) row
          = ((if merge then tbl.rows else []),
             RowOutcome.constraintError
               ("NOT NULL constraint failed: " ++ t ++ "." ++ c)) := by
      unfold processRow
      rw [hf, hviol]
      rfl
    have hins : insertRows merge t (pkOf t) tbl.schema tbl.notNull
        (if merge then tbl.rows else []) [row]
          = ((if merge then tbl.rows else []), 0, 1,
             ["Error importing " ++ t ++ " row: "
               ++ ("NOT NULL constraint failed: " ++ t ++ "." ++ c)]) := by
      show insertStep merge t (pkOf t) tbl.schema tbl.notNull
          ((if merge then tbl.rows else []), 0, 0, []) row = _
      dsimp only [insertStep]
      rw [hpr]
      rfl
    rw [hfold, heval, hins]
    exact ⟨alookup_single_self _ _, alookup_single_self _ _,
      List.mem_singleton.mpr rfl⟩
  · intro hcols
    have hf : (filterCols tbl.schema row).isEmpty = true := by
      rw [hcols]
      rfl
    have hins : insertRows merge t (pkOf t) tbl.schema tbl.notNull
        (if merge then tbl.rows else []) [row]
          = ((if merge then tbl.rows else []), 0, 1, []) := by
      show insertStep merge t (pkOf t) tbl.schema tbl.notNull
          ((if merge then tbl.rows else []), 0, 0, []) row = _
      have hpr : processRow merge t (pkOf t) tbl.schema tbl.notNull
          (if merge then tbl.rows else []) row
            = ((if merge then tbl.rows else []),
               RowOutcome.emptyIntersection) := by
        unfold processRow
        rw [hf]
        rfl
      dsimp only [insertStep]
      rw [hpr]
    rw [hfold, heval, hins]
    exact ⟨alookup_single_self _ _, alookup_single_self _ _⟩
  · rw [hfold, hfold, heval, heval, hstep]

/-! ## Lemmas for merge (upsert) idempotence -/

theorem mergeStep_insertable (pk schema notNull : List String) (d : Row)
    (hins : insertable schema notNull d = true) (x : List Row) :
    mergeStep pk schema notNull x d = upsertRow pk x (fillRow schema d) := by
  unfold mergeStep
  rw [if_pos hins]

theorem mergeStep_skip (pk schema notNull : List String) (d : Row)
    (hins : ¬insertable schema notNull d = true) (x : List Row) :
    mergeStep pk schema notNull x d = x := by
  unfold mergeStep
  rw [if_neg hins]

theorem processRow_fst_merge (t : String) (pk schema notNull : List String)
    (rs : List Row) (r : Row) :
    (processRow true t pk schema notNull rs r).1
      = mergeStep pk schema notNull rs r := by
  unfold processRow mergeStep insertable
  cases hf : (filterCols schema r).isEmpty with
  | true => simp
  | false =>
    cases hnv : nullViolation schema notNull r with
    | some c => simp
    | none => simp

theorem insertRowsStore_merge (t : String) (pk schema notNull : List String) :
    ∀ (docRows : List Row) (rows : List Row),
      insertRowsStore true t pk schema notNull rows docRows
        = docRows.foldl (mergeStep pk schema notNull) rows := by
  intro docRows
  induction docRows with
  | nil => intro rows; rfl
  | cons d ds ih =>
    intro rows
    show insertRowsStore true t pk schema notNull
        ((processRow true t pk schema notNull rows d).1) ds
      = List.foldl (mergeStep pk schema notNull)
          (mergeStep pk schema notNull rows d) ds
    rw [processRow_fst_merge]
    exact ih _

theorem replaceFirst_of_find?_eq (p : Row → Bool) (rs : List Row)
    (v : Row) (h : rs.find? p = some v) : replaceFirst p v rs = rs := by
  induction rs with
  | nil => simp [List.find?] at h
  | cons r rs ih =>
    by_cases hp : p r = true
    · rw [List.find?_cons_of_pos _ hp] at h
      obtain rfl := Option.some.inj h
      unfold replaceFirst
      rw [if_pos hp]
    · rw [List.find?_cons_of_neg _ hp] at h
      unfold replaceFirst
      rw [if_neg hp, ih h]

theorem find?_replaceFirst_self (p : Row → Bool) (new : Row)
    (hnew : p new = true) (rs : List Row) (hany : rs.any p = true) :
    (replaceFirst p new rs).find? p = some new := by
  induction rs with
  | nil => simp at hany
  | cons r rs ih =>
    by_cases hp : p r = true
    · unfold replaceFirst
      rw [if_pos hp]
      exact List.find?_cons_of_pos _ hnew
    · unfold replaceFirst
      rw [if_neg hp, List.find?_cons_of_neg _ hp]
      apply ih
      rcases List.any_eq_true.mp hany with ⟨x, hx, hpx⟩
      rcases List.mem_cons.mp hx with rfl | hx'
      · exact absurd hpx hp
      · exact List.any_eq_true.mpr ⟨x, hx', hpx⟩

theorem find?_replaceFirst_ne (p q : Row → Bool) (new : Row)
    (hqnew : q new = false)
    (hpq : ∀ r : Row, p r = true → q r = false) :
    ∀ rs : List Row,
      (replaceFirst p new rs).find? q = rs.find? q := by
  intro rs
  induction rs with
  | nil => rfl
  | cons r rs ih =>
    by_cases hp : p r = true
    · unfold replaceFirst
      rw [if_pos hp]
      rw [List.find?_cons_of_neg _ (by simp [hqnew]),
        List.find?_cons_of_neg _ (by simp [hpq r hp])]
    · unfold replaceFirst
      rw [if_neg hp]
      by_cases hq : q r = true
      · rw [List.find?_cons_of_pos _ hq, List.find?_cons_of_pos _ hq]
      · rw [List.find?_cons_of_neg _ hq, List.find?_cons_of_neg _ hq, ih]

theorem find?_upsert_self (pk : List String) (rs : List Row) (new : Row)
    (hp : pkPresent (rowPk pk new) = true) :
    (upsertRow pk rs new).find? (fun r => rowPk pk r == rowPk pk new)
      = some new := by
  simp only [upsertRow]
  cases hany : rs.any (fun r => rowPk pk r == rowPk pk new) with
  | true =>
    rw [if_pos (by rw [hp]; rfl)]
    exact find?_replaceFirst_self _ _ (by simp) _ hany
  | false =>
    rw [if_neg (by rw [hp]; exact fun hc => Bool.noConfusion hc)]
    rw [List.find?_append, List.find?_eq_none.mpr (fun x hx hpx => by
      have : rs.any (fun r => rowPk pk r == rowPk pk new) = true :=
        List.any_eq_true.mpr ⟨x, hx, hpx⟩
      rw [hany] at this
      exact Bool.noConfusion this)]
    simp

theorem find?_upsert_ne (pk : List String) (rs : List Row) (new : Row)
    (k : List (Option Value)) (hne : ¬rowPk pk new = k) :
    (upsertRow pk rs new).find? (fun r => rowPk pk r == k)
      = rs.find? (fun r => rowPk pk r == k) := by
  simp only [upsertRow]
  by_cases hcond : (pkPresent (rowPk pk new)
      && rs.any (fun r => rowPk pk r == rowPk pk new)) = true
  · rw [if_pos hcond]
    apply find?_replaceFirst_ne
    · simp [hne]
    · intro r hr
      have hr' : rowPk pk r = rowPk pk new := by simpa using hr
      simp [hr', hne]
  · rw [if_neg hcond]
    rw [List.find?_append]
    have hnew : List.find? (fun r => rowPk pk r == k) [new] = none := by
      simp [hne]
    rw [hnew]
    simp

theorem any_key_replaceFirst (pk : List String)
    (k c : List (Option Value)) (v : Row) (hv : rowPk pk v = k) :
    ∀ rs : List Row,
      (replaceFirst (fun r => rowPk pk r == k) v rs).any
          (fun r => rowPk pk r == c)
        = rs.any (fun r => rowPk pk r == c) := by
  intro rs
  induction rs with
  | nil => rfl
  | cons r rs ih =>
    by_cases hp : rowPk pk r = k
    · unfold replaceFirst
      rw [if_pos (by simp [hp])]
      simp only [List.any_cons]
      rw [hv, hp]
    · unfold replaceFirst
      rw [if_neg (by simp [hp]), List.any_cons, List.any_cons, ih]

theorem any_key_upsert_self (pk : List String) (rs : List Row) (v : Row)
    (hp : pkPresent (rowPk pk v) = true) :
    (upsertRow pk rs v).any (fun r => rowPk pk r == rowPk pk v) = true := by
  have hf := find?_upsert_self pk rs v hp
  have hsome : ((upsertRow pk rs v).find?
      (fun r => rowPk pk r == rowPk pk v)).isSome := by
    rw [hf]
    rfl
  rcases List.find?_isSome.mp hsome with ⟨x, hx, hpx⟩
  exact List.any_eq_true.mpr ⟨x, hx, hpx⟩

theorem any_key_mergeStep (pk schema notNull : List String)
    (k : List (Option Value)) (T : List Row) (r : Row)
    (h : T.any (fun x => rowPk pk x == k) = true) :
    (mergeStep pk schema notNull T r).any
        (fun x => rowPk pk x == k) = true := by
  by_cases hins : insertable schema notNull r = true
  · rw [mergeStep_insertable pk schema notNull r hins]
    simp only [upsertRow]
    by_cases hcond : (pkPresent (rowPk pk (fillRow schema r))
        && T.any (fun x => rowPk pk x == rowPk pk (fillRow schema r)))
        = true
    · rw [if_pos hcond,
        any_key_replaceFirst pk (rowPk pk (fillRow schema r)) k
          (fillRow schema r) rfl]
      exact h
    · rw [if_neg hcond, List.any_append, h]
      rfl
  · rw [mergeStep_skip pk schema notNull r hins]
    exact h

theorem any_key_mergeFold (pk schema notNull : List String)
    (k : List (Option Value)) :
    ∀ (ds : List Row) (T : List Row),
      T.any (fun x => rowPk pk x == k) = true →
      (ds.foldl (mergeStep pk schema notNull) T).any
          (fun x => rowPk pk x == k) = true := by
  intro ds
  induction ds with
  | nil => intro T h; exact h
  | cons d ds ih =>
    intro T h
    rw [List.foldl_cons]
    exact ih _ (any_key_mergeStep pk schema notNull k T d h)

theorem find?_mergeFold_preserved (pk schema notNull : List String)
    (k : List (Option Value)) :
    ∀ ds : List Row,
      (∀ r ∈ ds, insertable schema notNull r = true →
        ¬rowPk pk (fillRow schema r) = k) →
      ∀ T : List Row,
        (ds.foldl (mergeStep pk schema notNull) T).find?
            (fun r => rowPk pk r == k)
          = T.find? (fun r => rowPk pk r == k) := by
  intro ds
  induction ds with
  | nil => intro _ T; rfl
  | cons d ds ih =>
    intro hk T
    rw [List.foldl_cons, ih (fun r hr => hk r (List.mem_cons_of_mem d hr))]
    by_cases hins : insertable schema notNull d = true
    · rw [mergeStep_insertable pk schema notNull d hins]
      exact find?_upsert_ne _ _ _ _ (hk d (List.mem_cons_self d ds) hins)
    · rw [mergeStep_skip pk schema notNull d hins]

theorem replaceFirst_overwrite (p : Row → Bool) (v w : Row)
    (hv : p v = true) :
    ∀ rs : List Row,
      replaceFirst p w (replaceFirst p v rs) = replaceFirst p w rs := by
  intro rs
  induction rs with
  | nil => rfl
  | cons r rs ih =>
    by_cases hp : p r = true
    · simp [replaceFirst, hp, hv]
    · simp [replaceFirst, hp, ih]

theorem replaceFirst_comm (p q : Row → Bool) (v w : Row)
    (hqv : q v = false) (hpw : p w = false)
    (hpq : ∀ r : Row, ¬(p r = true ∧ q r = true)) :
    ∀ rs : List Row,
      replaceFirst p v (replaceFirst q w rs)
        = replaceFirst q w (replaceFirst p v rs) := by
  intro rs
  induction rs with
  | nil => rfl
  | cons r rs ih =>
    by_cases hp : p r = true
    · have hq : q r = false := by
        cases hqr : q r
        · rfl
        · exact absurd ⟨hp, hqr⟩ (hpq r)
      simp [replaceFirst, hp, hq, hqv]
    · by_cases hq : q r = true
      · simp [replaceFirst, hp, hq, hpw]
      · simp [replaceFirst, hp, hq, ih]

theorem replaceFirst_append_left (p : Row → Bool) (v : Row) :
    ∀ (xs ys : List Row), xs.any p = true →
      replaceFirst p v (xs ++ ys) = replaceFirst p v xs ++ ys := by
  intro xs ys
  induction xs with
  | nil => intro h; simp at h
  | cons r rs ih =>
    intro h
    by_cases hp : p r = true
    · simp [replaceFirst, hp]
    · have h' : rs.any p = true := by
        rcases List.any_eq_true.mp h with ⟨x, hx, hpx⟩
        rcases List.mem_cons.mp hx with rfl | hx'
        · exact absurd hpx hp
        · exact List.any_eq_true.mpr ⟨x, hx', hpx⟩
      simp [replaceFirst, hp, ih h']

theorem mergeFold_absorb (pk schema notNull : List String)
    (k : List (Option Value)) (hpk : pkPresent k = true) :
    ∀ ds : List Row,
      (∃ e ∈ ds, insertable schema notNull e = true
        ∧ rowPk pk (fillRow schema e) = k) →
      ∀ (T : List Row) (v : Row), rowPk pk v = k →
        T.any (fun r => rowPk pk r == k) = true →
        ds.foldl (mergeStep pk schema notNull)
            (replaceFirst (fun r => rowPk pk r == k) v T)
          = ds.foldl (mergeStep pk schema notNull) T := by
  intro ds
  induction ds with
  | nil =>
    intro hmem
    exact absurd hmem (by simp)
  | cons d ds ih =>
    intro hmem T v hv hany
    rw [List.foldl_cons, List.foldl_cons]
    by_cases hins : insertable schema notNull d = true
    · by_cases hkd : rowPk pk (fillRow schema d) = k
      · have hc1 : (pkPresent (rowPk pk (fillRow schema d))
            && (replaceFirst (fun r => rowPk pk r == k) v T).any
                (fun r => rowPk pk r == rowPk pk (fillRow schema d)))
            = true := by
          rw [hkd, hpk, any_key_replaceFirst pk k k v hv, hany]
          rfl
        have hc2 : (pkPresent (rowPk pk (fillRow schema d))
            && T.any (fun r => rowPk pk r == rowPk pk (fillRow schema d)))
            = true := by
          rw [hkd, hpk, hany]
          rfl
        have hstep : mergeStep pk schema notNull
            (replaceFirst (fun r => rowPk pk r == k) v T) d
            = mergeStep pk schema notNull T d := by
          rw [mergeStep_insertable pk schema notNull d hins,
            mergeStep_insertable pk schema notNull d hins]
          simp only [upsertRow]
          rw [if_pos hc1, if_pos hc2, hkd]
          exact replaceFirst_overwrite _ v _ (by simp [hv]) T
        rw [hstep]
      · obtain ⟨e, he, hei, hek⟩ := hmem
        have he' : e ∈ ds := by
          rcases List.mem_cons.mp he with rfl | h'
          · exact absurd hek hkd
          · exact h'
        have hne' : ¬k = rowPk pk (fillRow schema d) :=
          fun hc => hkd hc.symm
        have hanyeq : (replaceFirst (fun r => rowPk pk r == k) v T).any
              (fun r => rowPk pk r == rowPk pk (fillRow schema d))
            = T.any (fun r => rowPk pk r == rowPk pk (fillRow schema d)) :=
          any_key_replaceFirst pk k _ v hv T
        have hGT1 : mergeStep pk schema notNull
              (replaceFirst (fun r => rowPk pk r == k) v T) d
            = replaceFirst (fun r => rowPk pk r == k) v
                (mergeStep pk schema notNull T d) := by
          rw [mergeStep_insertable pk schema notNull d hins,
            mergeStep_insertable pk schema notNull d hins]
          simp only [upsertRow]
          by_cases hcond : (pkPresent (rowPk pk (fillRow schema d))
              && T.any (fun r => rowPk pk r == rowPk pk (fillRow schema d)))
              = true
          · rw [if_pos (by rw [hanyeq]; exact hcond), if_pos hcond]
            exact replaceFirst_comm _ _ _ _ (by simp [hkd])
              (by rw [hv]; simp [hne'])
              (by
                intro r hr
                obtain ⟨h1, h2⟩ := hr
                have e1 : rowPk pk r = rowPk pk (fillRow schema d) := by
                  simpa using h1
                have e2 : rowPk pk r = k := by simpa using h2
                exact hkd (e1.symm.trans e2)) T
          · rw [if_neg (by rw [hanyeq]; exact hcond), if_neg hcond]
            exact (replaceFirst_append_left _ v T [fillRow schema d]
              hany).symm
        have hany2 : (mergeStep pk schema notNull T d).any
            (fun r => rowPk pk r == k) = true :=
          any_key_mergeStep pk schema notNull k T d hany
        rw [hGT1]
        exact ih ⟨e, he', hei, hek⟩ (mergeStep pk schema notNull T d)
          v hv hany2
    · obtain ⟨e, he, hei, hek⟩ := hmem
      have he' : e ∈ ds := by
        rcases List.mem_cons.mp he with rfl | h'
        · exact absurd hei hins
        · exact h'
      rw [mergeStep_skip pk schema notNull d hins,
        mergeStep_skip pk schema notNull d hins]
      exact ih ⟨e, he', hei, hek⟩ T v hv hany

theorem mergeFold_idem (pk schema notNull : List String) :
    ∀ ds : List Row,
      (∀ r ∈ ds, pkPresent (rowPk pk (fillRow schema r)) = true) →
      ∀ rows : List Row,
        ds.foldl (mergeStep pk schema notNull)
            (ds.foldl (mergeStep pk schema notNull) rows)
          = ds.foldl (mergeStep pk schema notNull) rows := by
  intro ds
  induction ds with
  | nil => intro _ rows; rfl
  | cons d ds ih =>
    intro h rows
    simp only [List.foldl_cons]
    by_cases hins : insertable schema notNull d = true
    · have hpkd : pkPresent (rowPk pk (fillRow schema d)) = true :=
        h d (List.mem_cons_self d ds)
      have hbase : (mergeStep pk schema notNull rows d).any
          (fun r => rowPk pk r == rowPk pk (fillRow schema d)) = true := by
        rw [mergeStep_insertable pk schema notNull d hins]
        exact any_key_upsert_self pk rows (fillRow schema d) hpkd
      have hanyS : (List.foldl (mergeStep pk schema notNull)
            (mergeStep pk schema notNull rows d) ds).any
          (fun r => rowPk pk r == rowPk pk (fillRow schema d)) = true :=
        any_key_mergeFold pk schema notNull _ ds _ hbase
      by_cases hlater : ∃ e ∈ ds, insertable schema notNull e = true
          ∧ rowPk pk (fillRow schema e) = rowPk pk (fillRow schema d)
      · have hGS : mergeStep pk schema notNull
            (List.foldl (mergeStep pk schema notNull)
              (mergeStep pk schema notNull rows d) ds) d
            = replaceFirst
                (fun r => rowPk pk r == rowPk pk (fillRow schema d))
                (fillRow schema d)
                (List.foldl (mergeStep pk schema notNull)
                  (mergeStep pk schema notNull rows d) ds) := by
          rw [mergeStep_insertable pk schema notNull d hins]
          simp only [upsertRow]
          rw [if_pos (by rw [hpkd, hanyS]; rfl)]
        rw [hGS, mergeFold_absorb pk schema notNull
            (rowPk pk (fillRow schema d)) hpkd ds hlater
            (List.foldl (mergeStep pk schema notNull)
              (mergeStep pk schema notNull rows d) ds)
            (fillRow schema d) rfl hanyS]
        exact ih (fun r hr => h r (List.mem_cons_of_mem d hr))
          (mergeStep pk schema notNull rows d)
      · have hk : ∀ r ∈ ds, insertable schema notNull r = true →
            ¬rowPk pk (fillRow schema r) = rowPk pk (fillRow schema d) := by
          intro r hr hri hexact
          exact hlater ⟨r, hr, hri, hexact⟩
        have hfind : (List.foldl (mergeStep pk schema notNull)
              (mergeStep pk schema notNull rows d) ds).find?
            (fun r => rowPk pk r == rowPk pk (fillRow schema d))
            = some (fillRow schema d) := by
          rw [find?_mergeFold_preserved pk schema notNull
            (rowPk pk (fillRow schema d)) ds hk]
          rw [mergeStep_insertable pk schema notNull d hins]
          exact find?_upsert_self pk rows (fillRow schema d) hpkd
        have hGS : mergeStep pk schema notNull
            (List.foldl (mergeStep pk schema notNull)
              (mergeStep pk schema notNull rows d) ds) d
            = List.foldl (mergeStep pk schema notNull)
                (mergeStep pk schema notNull rows d) ds := by
          rw [mergeStep_insertable pk schema notNull d hins]
          simp only [upsertRow]
          rw [if_pos (by rw [hpkd, hanyS]; rfl)]
          exact replaceFirst_of_find?_eq _ _ _ hfind
        rw [hGS]
        exact ih (fun r hr => h r (List.mem_cons_of_mem d hr))
          (mergeStep pk schema notNull rows d)
    · rw [mergeStep_skip pk schema notNull d hins,
        mergeStep_skip pk schema notNull d hins]
      exact ih (fun r hr => h r (List.mem_cons_of_mem d hr)) rows

theorem insertRowsStore_merge_idem (t : String)
    (pk schema notNull : List String) (ds rows : List Row)
    (hpres : ∀ r ∈ ds, pkPresent (rowPk pk (fillRow schema r)) = true) :
    insertRowsStore true t pk schema notNull
        (insertRowsStore true t pk schema notNull rows ds) ds
      = insertRowsStore true t pk schema notNull rows ds := by
  simp only [insertRowsStore_merge t pk schema notNull]
  exact mergeFold_idem pk schema notNull ds hpres rows

theorem tableOutcome_merge_idem (tbls : List (String × List Row))
    (t : String) (ot : Option Table)
    (h : ∀ rows, alookup tbls t = some rows →
       ∀ tbl : Table, ot = some tbl →
         ∀ r ∈ rows,
           pkPresent (rowPk (pkOf t) (fillRow tbl.schema r)) = true) :
    tableOutcome true tbls t (tableOutcome true tbls t ot)
      = tableOutcome true tbls t ot := by
  cases hlook : alookup tbls t with
  | none => simp [tableOutcome, hlook]
  | some rows =>
    cases hot : ot with
    | none => simp [tableOutcome, hlook]
    | some tbl =>
      have hpres := h rows hlook tbl hot
      by_cases hsch : tbl.schema.isEmpty = true
      · simp [tableOutcome, hlook, hsch]
      · have hsch' : tbl.schema.isEmpty = false := by
          cases hb : tbl.schema.isEmpty
          · rfl
          · exact absurd hb hsch
        simp only [tableOutcome, hlook, hsch', Bool.false_eq_true,
          if_false]
        rw [insertRowsStore_merge_idem t (pkOf t) tbl.schema tbl.notNull
          rows tbl.rows hpres]

theorem findTable_importDatabaseData_merge (db : Store)
    (tbls : List (String × List Row)) (t : String) :
    findTable ((importDatabaseData db { tables := some tbls } true).1) t
      = if t ∈ importOrder then tableOutcome true tbls t (findTable db t)
        else findTable db t := by
  rw [findTable_importDatabaseData]
  rfl

/-- C4 counterexample: merge-importing a document whose row carries no
primary-key value is not idempotent — each run of
`INSERT OR REPLACE INTO interns (name) VALUES (?)` appends a fresh row,
so running the import twice leaves a different (duplicated) row set than
running it once. -/
theorem C4_merge_idempotence_cex :
    findTable ((importDatabaseData
        ((importDatabaseData (internsStore [])
            { tables := some [("interns", [[("name", Value.vtext "x")]])] }
            true).1)
        { tables := some [("interns", [[("name", Value.vtext "x")]])] }
        true).1) "interns"
      ≠ findTable ((importDatabaseData (internsStore [])
          { tables := some [("interns", [[("name", Value.vtext "x")]])] }
          true).1) "interns" := by
  decide

/-- C4 amended: merge-mode import is idempotent provided every document
row supplies a non-null value for its table's primary key among the
imported columns: running `importAll(store, doc, {merge:true})` twice
then yields exactly the same table contents as running it once — also
when several document rows share a primary-key value, since the second
run re-replaces each row in place. -/
theorem C4_merge_idempotence_amended (db : Store)
    (tbls : List (String × List Row))
    (h : ∀ t ∈ importOrder, ∀ rows, alookup tbls t = some rows →
       ∀ tbl : Table, findTable db t = some tbl →
         ∀ r ∈ rows,
           pkPresent (rowPk (pkOf t) (fillRow tbl.schema r)) = true) :
    ∀ t : String,
      findTable ((importDatabaseData
          ((importDatabaseData db { tables := some tbls } true).1)
          { tables := some tbls } true).1) t
        = findTable
            ((importDatabaseData db { tables := some tbls } true).1) t := by
  intro t
  rw [findTable_importDatabaseData_merge, findTable_importDatabaseData_merge]
  by_cases ht : t ∈ importOrder
  · simp only [if_pos ht]
    exact tableOutcome_merge_idem tbls t (findTable db t) (h t ht)
  · simp only [if_neg ht]

theorem C4_merge_idempotence_amended_witness :
    findTable ((importDatabaseData
        ((importDatabaseData (internsStore [rowWith 1 (Value.vtext "a")])
            { tables := some [("interns", [rowWith 2 (Value.vtext "b")])] }
            true).1)
        { tables := some [("interns", [rowWith 2 (Value.vtext "b")])] }
        true).1) "interns"
      = findTable ((importDatabaseData
          (internsStore [rowWith 1 (Value.vtext "a")])
          { tables := some [("interns", [rowWith 2 (Value.vtext "b")])] }
          true).1) "interns" :=
  C4_merge_idempotence_amended _ _
    (by
      intro t ht rows hlook tbl htbl
      simp only [importOrder, List.mem_cons, List.not_mem_nil,
        or_false] at ht
      rcases ht with rfl|rfl|rfl|rfl|rfl|rfl|rfl|rfl|rfl|rfl|rfl
      case inr.inl =>
        have hr : rows = [rowWith 2 (Value.vtext "b")] := by
          rw [alookup_single_self] at hlook
          exact (Option.some.inj hlook).symm
        have ht2 : tbl = { schema := ["id", "name"],
                           notNull := ["name"],
                           rows := [rowWith 1 (Value.vtext "a")] } := by
          have hconc : findTable
              (internsStore [rowWith 1 (Value.vtext "a")]) "interns"
              = some { schema := ["id", "name"],
                       notNull := ["name"],
                       rows := [rowWith 1 (Value.vtext "a")] } := rfl
          rw [hconc] at htbl
          exact (Option.some.inj htbl).symm
        subst hr
        subst ht2
        decide
      all_goals simp [alookup] at hlook)
    "interns"

theorem C5_schema_narrowing_amended_witness :
    ("interns" ∈ importOrder
     ∧ findTable (internsStore []) "interns"
         = some { schema := ["id", "name"], notNull := ["name"],
                  rows := [] }
     ∧ (({ schema := ["id", "name"], notNull := ["name"],
           rows := [] } : Table).schema ≠ [])
     ∧ filterCols ["id", "name"]
         [("id", Value.vint 1), ("name", Value.vtext "n"),
          ("legacy", Value.vtext "z")] ≠ []
     ∧ nullViolation ["id", "name"] ["name"]
         [("id", Value.vint 1), ("name", Value.vtext "n"),
          ("legacy", Value.vtext "z")] = none)
    ∧ (alookup (importDatabaseData (internsStore [])
          { tables := some [("interns",
              [[("id", Value.vint 1), ("name", Value.vtext "n"),
                ("legacy", Value.vtext "z")]])] }
          true).2.imported "interns" = some 1
       ∧ alookup (importDatabaseData (internsStore [])
          { tables := some [("interns",
              [[("id", Value.vint 1), ("name", Value.vtext "n"),
                ("legacy", Value.vtext "z")]])] }
          true).2.skipped "interns" = some 0) :=
  ⟨⟨by decide, rfl, by decide, by decide, by decide⟩,
   (C5_schema_narrowing_amended (internsStore []) "interns"
      { schema := ["id", "name"], notNull := ["name"], rows := [] }
      [("id", Value.vint 1), ("name", Value.vtext "n"),
       ("legacy", Value.vtext "z")] true
      (by decide) rfl (by decide)).1 (by decide) (by decide)⟩
